import Mathlib

/-!
Verification of the sunflower-lanyard-digitised firmware against its
natural-language specification.

The Python sources are shallowly embedded: pure computations become Lean
functions over `Int`/`Nat`/`List`/`ℚ`, Python `//` becomes `Int.fdiv`,
bus traffic becomes an explicit list of events, and code paths that can
raise are wrapped in `Option`/an explicit outcome type.  Each claim of
the specification is then settled by a theorem about these definitions.
-/

/-! ## Display driver embedding (src/ili9486.py) -/

/-- One transaction on the display SPI bus: a command byte (DC low) or a
data payload (DC high), as issued by `write_cmd` / `write_data` /
the chunked pixel writes. -/
inductive Ev where
  | cmd (b : Nat)
  | data (bs : List Nat)
deriving DecidableEq

/-- Big-endian 16-bit encoding `[v >> 8, v & 0xFF]` used by `_set_window`
for window coordinates (coordinates are nonnegative after clipping). -/
def be16 (v : Int) : List Nat :=
  [v.toNat / 256, v.toNat % 256]

/-- `ILI9486._set_window`: CASET with start/end X, PASET with start/end Y
(panel offsets added to every coordinate), then RAMWR. -/
def set_window (xOff yOff x0 y0 x1 y1 : Int) : List Ev :=
  [Ev.cmd 0x2A, Ev.data (be16 (x0 + xOff) ++ be16 (x1 + xOff)),
   Ev.cmd 0x2B, Ev.data (be16 (y0 + yOff) ++ be16 (y1 + yOff)),
   Ev.cmd 0x2C]

/-- `ILI9486.fill_rect`: clip against the panel, no-op when the clipped
rectangle is empty, otherwise set the window and stream the color in
1024-pixel chunks plus a final partial chunk.  Returns the bus trace. -/
def fill_rect (W H xOff yOff x y w h : Int) (color : Nat) : List Ev :=
  if w ≤ 0 ∨ h ≤ 0 then []
  else
    let x1 := if x < 0 then 0 else x
    let w1 := if x < 0 then w + x else w
    let y1 := if y < 0 then 0 else y
    let h1 := if y < 0 then h + y else h
    let w2 := if x1 + w1 > W then W - x1 else w1
    let h2 := if y1 + h1 > H then H - y1 else h1
    if w2 ≤ 0 ∨ h2 ≤ 0 then []
    else
      let hi := (color >>> 8) &&& 0xFF
      let lo := color &&& 0xFF
      let buf := (List.replicate 1024 [hi, lo]).flatten
      let totalPixels := (w2 * h2).toNat
      let fullChunks := totalPixels / 1024
      let remainder := totalPixels % 1024
      set_window xOff yOff x1 y1 (x1 + w2 - 1) (y1 + h2 - 1)
        ++ List.replicate fullChunks (Ev.data buf)
        ++ (if remainder ≠ 0 then [Ev.data (buf.take (remainder * 2))] else [])

/-- `ILI9486.draw_pixel`: out-of-bounds coordinates are a silent no-op,
otherwise a 1×1 window write of the big-endian color. -/
def draw_pixel (W H xOff yOff x y : Int) (color : Nat) : List Ev :=
  if ¬(0 ≤ x ∧ x < W ∧ 0 ≤ y ∧ y < H) then []
  else set_window xOff yOff x y x y ++ [Ev.data [(color >>> 8) &&& 0xFF, color &&& 0xFF]]

/-- The byte-swap loop of `ILI9486.blit_buffer` over one chunk:
`tmp[j] = part[j+1]; tmp[j+1] = part[j]` for `j = 0, 2, …`.  On an
odd-length chunk the Python code indexes past the end, which raises;
that outcome is `none`. -/
def swapPairs : List Nat → Option (List Nat)
  | [] => some []
  | [_] => none
  | a :: b :: rest => (swapPairs rest).map fun r => b :: a :: r

/-- `ILI9486.blit_buffer`: refuses (no bus traffic) when the target
rectangle is degenerate or would extend past the panel bounds; otherwise
sets the window and streams the buffer, byte-swapping little-endian
sources in 2048-byte chunks.  `none` models an exception escaping. -/
def blit_buffer (W H xOff yOff : Int) (buf : List Nat) (x y w h : Int)
    (srcLE : Bool) : Option (List Ev) :=
  if w ≤ 0 ∨ h ≤ 0 then some []
  else if x < 0 ∨ y < 0 ∨ x + w > W ∨ y + h > H then some []
  else
    let win := set_window xOff yOff x y (x + w - 1) (y + h - 1)
    if srcLE = false then some (win ++ [Ev.data buf])
    else
      match (List.toChunks 2048 buf).mapM swapPairs with
      | none => none
      | some chunks => some (win ++ chunks.map Ev.data)

/-! ## Generic UI toolkit embedding (src/ui.py) -/

/-- `ui.Button` geometry and label; the `on_press` action is irrelevant to
the hit test and omitted. -/
structure Button where
  x : Int
  y : Int
  w : Int
  h : Int
  label : String
deriving DecidableEq

/-- `Button.contains`: the chained comparison
`self.x <= px < self.x + self.w and self.y <= py < self.y + self.h`. -/
def Button.contains (b : Button) (px py : Int) : Bool :=
  decide ((b.x ≤ px ∧ px < b.x + b.w) ∧ (b.y ≤ py ∧ py < b.y + b.h))

/-! ## Touch mapping embedding (src/main.py, src/touch_cal.py) -/

/-- `main.clamp`. -/
def clamp (v lo hi : Int) : Int :=
  if v < lo then lo else if v > hi then hi else v

/-- `main.map_linear`: integer linear interpolation with Python floor
division, clamped to the output range; degenerate input range maps to
`out_min`. -/
def map_linear (raw rawMin rawMax outMin outMax : Int) : Int :=
  if rawMax = rawMin then outMin
  else clamp (Int.fdiv ((raw - rawMin) * (outMax - outMin)) (rawMax - rawMin) + outMin)
    (min outMin outMax) (max outMin outMax)

/-- The calibration dictionary of src/touch_cal.py. -/
structure Cal where
  rawXLeft : Int
  rawXRight : Int
  rawYTop : Int
  rawYBot : Int
  W : Int
  H : Int
  swapXY : Bool
  flipX : Bool
  flipY : Bool
  pMax : Int
  samples : Int
deriving DecidableEq

/-- The shipped `CAL` values. -/
def CAL : Cal :=
  { rawXLeft := 332, rawXRight := 1616, rawYTop := 284, rawYBot := 1576,
    W := 480, H := 320, swapXY := true, flipX := true, flipY := false,
    pMax := 250, samples := 15 }

/-- `main.raw_to_screen`: optional axis swap, optional reflection of each
flipped axis about the literal 3800, then `map_linear` of each axis onto
`0 .. dimension - 1`. -/
def raw_to_screen (c : Cal) (rx ry : Int) : Int × Int :=
  let rx2 := if c.swapXY then ry else rx
  let ry2 := if c.swapXY then rx else ry
  let rx3 := if c.flipX then 3800 - rx2 else rx2
  let ry3 := if c.flipY then 3800 - ry2 else ry2
  (map_linear rx3 c.rawXLeft c.rawXRight 0 (c.W - 1),
   map_linear ry3 c.rawYTop c.rawYBot 0 (c.H - 1))

/-! ## Touch digitizer embedding (src/xpt2046.py) -/

/-- The sampling loop of `XPT2046.get_raw`: each iteration issues a Y
conversion then an X conversion on the bus (the k-th `_read12` call
returns `stream k`) and appends the results to the running lists.
Returns `(xs, ys)` after the given number of iterations. -/
def sampleLoop (stream : Nat → Nat) : Nat → List Nat × List Nat
  | 0 => ([], [])
  | k + 1 =>
    let p := sampleLoop stream k
    (p.1 ++ [stream (2 * k + 1)], p.2 ++ [stream (2 * k)])

/-- `XPT2046.get_raw`: `none` when an IRQ line is configured and reports
not-touched; otherwise take the sample pairs, sort each axis in place,
return the middle element of each sorted list and the summed spreads as
the pressure proxy. -/
def get_raw (irqPresent touched : Bool) (samples : Nat) (stream : Nat → Nat) :
    Option (Nat × Nat × Nat) :=
  if irqPresent && !touched then none
  else
    let p := sampleLoop stream samples
    let xs := p.1.insertionSort (· ≤ ·)
    let ys := p.2.insertionSort (· ≤ ·)
    some (xs.getD (xs.length / 2) 0, ys.getD (ys.length / 2) 0,
      (xs.getLastD 0 - xs.headD 0) + (ys.getLastD 0 - ys.headD 0))

/-- Bus conversion results realising the spec example: Y samples
[20, 21, 90, 22, 19] interleaved with X samples [10, 50, 12, 48, 11]. -/
def exStream (k : Nat) : Nat :=
  [20, 10, 21, 50, 90, 12, 22, 48, 19, 11].getD k 0

/-! ## Ambient sound classifier embedding (src/mic_level.py) -/

/-- Construction parameters of `MicLevel` (floats idealised as `ℚ`,
milliseconds as `ℤ`). -/
structure MicParams where
  emaAlpha : ℚ
  quietThreshold : ℚ
  hysteresis : ℚ
  quietHoldMs : ℤ

/-- Mutable classifier state: `_ema_rms`, `_quiet`, `_quiet_start`. -/
structure MicState where
  ema : ℚ
  quiet : Bool
  qstart : Option ℤ

/-- Initial state set by `MicLevel.__init__`: smoothed RMS 0, Loud,
no candidate-quiet timestamp. -/
def micInit : MicState := { ema := 0, quiet := false, qstart := none }

/-- The EMA smoothing step `alpha * raw + (1 - alpha) * prev`. -/
def newEma (p : MicParams) (emaPrev raw : ℚ) : ℚ :=
  p.emaAlpha * raw + (1 - p.emaAlpha) * emaPrev

/-- The state-machine portion of `MicLevel.update`, fed with the raw RMS
of this update and the current tick time. -/
def micUpdate (p : MicParams) (st : MicState) (raw : ℚ) (now : ℤ) : MicState :=
  let ema := newEma p st.ema raw
  if st.quiet = false then
    if ema < p.quietThreshold then
      match st.qstart with
      | none => { ema := ema, quiet := false, qstart := some now }
      | some t =>
        if now - t ≥ p.quietHoldMs then { ema := ema, quiet := true, qstart := some t }
        else { ema := ema, quiet := false, qstart := some t }
    else { ema := ema, quiet := false, qstart := none }
  else
    if ema > p.quietThreshold + p.hysteresis then { ema := ema, quiet := false, qstart := none }
    else { ema := ema, quiet := true, qstart := st.qstart }

/-- The parameters the application controller passes to `MicLevel`
(src/main.py: alpha 0.15, threshold 0.4, hysteresis 0.003, hold 1500 ms). -/
def mainMicParams : MicParams :=
  { emaAlpha := 15 / 100, quietThreshold := 4 / 10, hysteresis := 3 / 1000,
    quietHoldMs := 1500 }

/-- The sequence of classifier states along a run: state before each
update, then the final state. -/
def micStates (p : MicParams) (st : MicState) : List (ℚ × ℤ) → List MicState
  | [] => [st]
  | (r, n) :: rest => st :: micStates p (micUpdate p st r n) rest

/-! ## Word-wrap embedding (src/main.py wrap_text) -/

/-- Python default-whitespace test used by `str.strip`. -/
def isPySpace (c : Char) : Bool :=
  c = ' ' || c = '\t' || c = '\n' || c = '\r' || c = '\x0b' || c = '\x0c'

/-- Python `str.strip()`: drop leading and trailing whitespace. -/
def pyStrip (l : List Char) : List Char :=
  ((l.dropWhile isPySpace).reverse.dropWhile isPySpace).reverse

/-- Python `str.split(sep)` for a single-character separator, keeping
empty fragments. -/
def pySplit (sep : Char) : List Char → List (List Char)
  | [] => [[]]
  | c :: rest =>
    if c = sep then [] :: pySplit sep rest
    else
      match pySplit sep rest with
      | [] => [[c]]
      | t :: ts => (c :: t) :: ts

/-- The fit-or-flush step of `wrap_text` for one token: append to the
current line when `len(cur) + (1 if cur else 0) + len(tok)` fits the
budget, otherwise flush the current line (if nonempty) and start the
token on a new line. -/
def accumWord (maxChars : Nat) (st : List (List Char) × List Char)
    (w : List Char) : List (List Char) × List Char :=
  if st.2.length + (if st.2 ≠ [] then 1 else 0) + w.length ≤ maxChars then
    (st.1, pyStrip (st.2 ++ ' ' :: w))
  else
    ((if st.2 ≠ [] then st.1 ++ [st.2] else st.1), w)

/-- The explicit-line-break path of `wrap_text`: process the fragments
of a token split at embedded newlines, flushing the current line after
every fragment except the last (empty fragments are skipped for
accumulation but still force their flush). -/
def handleParts (maxChars : Nat) :
    List (List Char) → (List (List Char) × List Char) →
    (List (List Char) × List Char)
  | [], st => st
  | [p], st => if p ≠ [] then accumWord maxChars st p else st
  | p :: q :: rest, st =>
    handleParts maxChars (q :: rest)
      (let st1 := if p ≠ [] then accumWord maxChars st p else st
       ((if st1.2 ≠ [] then st1.1 ++ [st1.2] else st1.1), []))

/-- One token of the `wrap_text` loop: tokens containing a newline go
through the fragment path, others through the fit-or-flush step. -/
def processWord (maxChars : Nat) (st : List (List Char) × List Char)
    (w : List Char) : List (List Char) × List Char :=
  if '\n' ∈ w then handleParts maxChars (pySplit '\n' w) st
  else accumWord maxChars st w

/-- The `for w_ in words` loop of `wrap_text`. -/
def wrapLoop (maxChars : Nat) :
    List (List Char) → (List (List Char) × List Char) →
    (List (List Char) × List Char)
  | [], st => st
  | w :: ws, st => wrapLoop maxChars ws (processWord maxChars st w)

/-- `main.wrap_text`: split on single spaces, run the loop from an empty
state, and append the final current line if nonempty. -/
def wrap_text (s : List Char) (maxChars : Nat) : List (List Char) :=
  let st := wrapLoop maxChars (pySplit ' ' s) ([], [])
  if st.2 ≠ [] then st.1 ++ [st.2] else st.1

/-! ## Ambient-noise badge embedding (src/main.py draw_mic_badge) -/

/-- Badge throttle constant `MIC_DRAW_THROTTLE` (ms). -/
def MIC_DRAW_THROTTLE : Int := 250

/-- Badge bookkeeping: `_last_badge_draw` and `_last_badge_state`. -/
structure BadgeState where
  lastDraw : Int
  lastState : Option Bool
deriving DecidableEq

/-- Initial badge bookkeeping from src/main.py module top level. -/
def badgeInit : BadgeState := { lastDraw := 0, lastState := none }

/-- `main.draw_mic_badge`: no-op without a microphone; unforced calls are
throttled to one per 250 ms and additionally skipped (recording the
attempt time) when the classification is unchanged; otherwise the badge
is drawn and both fields are updated.  Returns whether a draw happened
plus the new bookkeeping. -/
def draw_mic_badge (micPresent force quiet : Bool) (now : Int)
    (st : BadgeState) : Bool × BadgeState :=
  if micPresent = false then (false, st)
  else if force = false ∧ now - st.lastDraw < MIC_DRAW_THROTTLE then (false, st)
  else if force = false ∧ some quiet = st.lastState then
    (false, { st with lastDraw := now })
  else (true, { lastDraw := now, lastState := some quiet })

/-! ## Communication cards embedding (src/main.py) -/

/-- RGB565 colour constants from src/main.py. -/
def BLACK : Nat := 0x0000
def WHITE : Nat := 0xFFFF
def GREY : Nat := 0x7BEF
def YELL : Nat := 0xFFE0
def RED : Nat := 0xF800
def GREEN : Nat := 0x07E0
def BLUE : Nat := 0x001F
def CYAN : Nat := 0x07FF
def MAG : Nat := 0xF81F
def ORNG : Nat := 0xFD20

/-- One communication card: icon glyph, phrase, background, foreground. -/
structure Card where
  icon : String
  phrase : String
  bg : Nat
  fg : Nat
deriving DecidableEq

/-- `CAT_NEEDS`. -/
def CAT_NEEDS : List Card :=
  [⟨"!", "I NEED HELP", RED, WHITE⟩,
   ⟨"~", "PLEASE WAIT", ORNG, BLACK⟩,
   ⟨"~", "I NEED SPACE", ORNG, BLACK⟩,
   ⟨"~", "I NEED A BREAK", YELL, BLACK⟩,
   ⟨"~", "WATER PLEASE", CYAN, BLACK⟩,
   ⟨"~", "HUNGRY", GREEN, BLACK⟩,
   ⟨"~", "TIRED", GREY, BLACK⟩,
   ⟨"!", "I NEED TO GO HOME", ORNG, BLACK⟩]

/-- `CAT_SENSORY`. -/
def CAT_SENSORY : List Card :=
  [⟨"!", "TOO LOUD", MAG, WHITE⟩,
   ⟨"!", "TOO MANY PEOPLE", MAG, WHITE⟩,
   ⟨"!", "TOO BRIGHT", MAG, WHITE⟩,
   ⟨"~", "I NEED QUIET", BLUE, WHITE⟩,
   ⟨"~", "I NEED DIM LIGHTS", BLUE, WHITE⟩]

/-- `CAT_RESPONSES`. -/
def CAT_RESPONSES : List Card :=
  [⟨"?", "YES", GREEN, BLACK⟩,
   ⟨"?", "NO", RED, WHITE⟩,
   ⟨"~", "MAYBE", YELL, BLACK⟩,
   ⟨"~", "I DON\x27T KNOW", GREY, BLACK⟩,
   ⟨"~", "PLEASE TEXT ME", CYAN, BLACK⟩,
   ⟨"~", "I CAN\x27T SPEAK RIGHT NOW", CYAN, BLACK⟩]

/-- `CAT_FEELINGS`. -/
def CAT_FEELINGS : List Card :=
  [⟨"*", "I FEEL OVERWHELMED", ORNG, BLACK⟩,
   ⟨"*", "I FEEL SICK", RED, WHITE⟩,
   ⟨"*", "I FEEL ANXIOUS", ORNG, BLACK⟩,
   ⟨"*", "I AM OKAY", GREEN, BLACK⟩]

/-- `FAV_CARDS`. -/
def FAV_CARDS : List Card :=
  [⟨"!", "PLEASE WAIT", ORNG, BLACK⟩,
   ⟨"!", "I NEED SPACE", ORNG, BLACK⟩,
   ⟨"!", "TOO LOUD", MAG, WHITE⟩,
   ⟨"!", "TOO MANY PEOPLE", MAG, WHITE⟩,
   ⟨"!", "I NEED TO GO HOME", ORNG, BLACK⟩,
   ⟨"~", "WATER PLEASE", CYAN, BLACK⟩]

/-- `COMM_CATEGORIES`: name, card list, accent background/foreground. -/
def COMM_CATEGORIES : List (String × List Card × Nat × Nat) :=
  [("FAVOURITES", FAV_CARDS, YELL, BLACK),
   ("NEEDS", CAT_NEEDS, GREEN, BLACK),
   ("SENSORY", CAT_SENSORY, MAG, WHITE),
   ("RESPONSES", CAT_RESPONSES, CYAN, BLACK),
   ("FEELINGS", CAT_FEELINGS, ORNG, BLACK)]

/-- The communication-card navigation state: `comm_cards`,
`comm_cat_name`, `comm_card_index`. -/
structure CommState where
  cards : List Card
  catName : String
  idx : Nat
deriving DecidableEq

/-- Module-level initial values. -/
def commInit : CommState :=
  { cards := FAV_CARDS, catName := "FAVOURITES", idx := 0 }

/-- `main.open_category`: load the indexed category and reset the card
index to 0. -/
def open_category (i : Nat) : CommState :=
  let entry := COMM_CATEGORIES.getD i ("", [], 0, 0)
  { cards := entry.2.1, catName := entry.1, idx := 0 }

/-- `main.comm_prev`: step back unless already at index 0. -/
def comm_prev (st : CommState) : CommState :=
  if st.idx > 0 then { st with idx := st.idx - 1 } else st

/-- `main.comm_next`: step forward unless already at the last card. -/
def comm_next (st : CommState) : CommState :=
  if st.idx < st.cards.length - 1 then { st with idx := st.idx + 1 } else st

/-! ## Main-loop touch polling embedding (src/main.py, src/xpt2046.py) -/

/-- The callable attributes defined by class `XPT2046` in
src/xpt2046.py. -/
def xpt2046Methods : List String := ["__init__", "touched", "_read12", "get_raw"]

/-- Outcome of evaluating a Python expression or statement: a value, or
an uncaught exception. -/
inductive PyOutcome (A : Type) where
  | ok (val : A)
  | raised (msg : String)
deriving DecidableEq

/-- The attribute access plus call `tp.read(samples=9, delay_us=120)`
from the main loop: Python resolves the attribute name against the
instance and its class before any call happens, raising AttributeError
when it is absent.  The would-be call result is modelled by `get_raw`
(the method those keyword arguments fit). -/
def tpRead (samples _delayUs : Nat) (stream : Nat → Nat) :
    PyOutcome (Option (Nat × Nat × Nat)) :=
  if "read" ∈ xpt2046Methods then
    PyOutcome.ok (get_raw true true samples stream)
  else PyOutcome.raised "AttributeError: XPT2046 object has no attribute read"

/-- The touch poll of one main-loop iteration:
`t = tp.read(samples=9, delay_us=120) if tp.touched() else None`. -/
def main_loop_touch_poll (touched : Bool) (stream : Nat → Nat) :
    PyOutcome (Option (Nat × Nat × Nat)) :=
  if touched then tpRead 9 120 stream else PyOutcome.ok none

/-- One main-loop iteration, reduced to its touch handling: the `while
True` body contains no exception handler, so an exception raised by the
touch poll propagates out of the loop; otherwise the iteration finishes
(the value records whether a press was reported). -/
def main_loop_iteration (touched : Bool) (stream : Nat → Nat) :
    PyOutcome Bool :=
  match main_loop_touch_poll touched stream with
  | PyOutcome.raised e => PyOutcome.raised e
  | PyOutcome.ok t => PyOutcome.ok t.isSome

/-! ## Theorems -/

/-- `clamp` stays in `[lo, hi]` when `lo ≤ hi`. -/
theorem clamp_mem (v lo hi : Int) (h : lo ≤ hi) :
    lo ≤ clamp v lo hi ∧ clamp v lo hi ≤ hi := by
  unfold clamp
  split <;> [omega; skip]
  split <;> omega

/-- Behaviour of `map_linear` onto `0 .. dmax`: always within bounds, and
pinned to the corresponding bound for inputs outside the raw range. -/
theorem map_linear_bounds (r rmin rmax dmax : Int)
    (hr : rmin < rmax) (hd : 1 ≤ dmax) :
    0 ≤ map_linear r rmin rmax 0 dmax ∧ map_linear r rmin rmax 0 dmax ≤ dmax ∧
    (r < rmin → map_linear r rmin rmax 0 dmax = 0) ∧
    (rmax < r → map_linear r rmin rmax 0 dmax = dmax) := by
  have hne : rmax ≠ rmin := by omega
  have hc : (0 : Int) < rmax - rmin := by omega
  have hmin : min (0 : Int) dmax = 0 := by omega
  have hmax : max (0 : Int) dmax = dmax := by omega
  unfold map_linear
  rw [if_neg hne, hmin, hmax]
  refine ⟨(clamp_mem _ _ _ (by omega)).1, (clamp_mem _ _ _ (by omega)).2, ?_, ?_⟩
  · intro hlt
    have hnum : (r - rmin) * (dmax - 0) < 0 :=
      mul_neg_of_neg_of_pos (by omega) (by omega)
    have hv : Int.fdiv ((r - rmin) * (dmax - 0)) (rmax - rmin) < 0 := by
      rw [Int.fdiv_eq_ediv _ (le_of_lt hc)]
      exact Int.ediv_neg' hnum hc
    unfold clamp
    rw [if_pos (by omega)]
  · intro hgt
    have hnum : dmax * (rmax - rmin) ≤ (r - rmin) * (dmax - 0) := by
      have h1 : (rmax - rmin + 1) ≤ r - rmin := by omega
      have h2 : (rmax - rmin + 1) * dmax ≤ (r - rmin) * dmax :=
        mul_le_mul_of_nonneg_right h1 (by omega)
      nlinarith
    have hv : dmax ≤ Int.fdiv ((r - rmin) * (dmax - 0)) (rmax - rmin) := by
      rw [Int.fdiv_eq_ediv _ (le_of_lt hc)]
      exact (Int.le_ediv_iff_mul_le hc).mpr hnum
    unfold clamp
    rw [if_neg (by omega)]
    by_cases hgt2 : Int.fdiv ((r - rmin) * (dmax - 0)) (rmax - rmin) + 0 > dmax
    · rw [if_pos hgt2]
    · rw [if_neg hgt2]; omega

/-- C5: `raw_to_screen` applies swap, reflection about 3800 of flipped
axes, then a per-axis clamped linear map onto `0 .. dimension - 1`;
post-transform values outside the calibrated range map to the
corresponding bound, and the result never leaves the screen. -/
theorem raw_to_screen_clamps (c : Cal) (rx ry tx ty : Int)
    (htx : tx = if c.flipX then 3800 - (if c.swapXY then ry else rx)
                else (if c.swapXY then ry else rx))
    (hty : ty = if c.flipY then 3800 - (if c.swapXY then rx else ry)
                else (if c.swapXY then rx else ry))
    (hx : c.rawXLeft < c.rawXRight) (hy : c.rawYTop < c.rawYBot)
    (hW : 2 ≤ c.W) (hH : 2 ≤ c.H) :
    raw_to_screen c rx ry =
      (map_linear tx c.rawXLeft c.rawXRight 0 (c.W - 1),
       map_linear ty c.rawYTop c.rawYBot 0 (c.H - 1)) ∧
    0 ≤ (raw_to_screen c rx ry).1 ∧ (raw_to_screen c rx ry).1 ≤ c.W - 1 ∧
    0 ≤ (raw_to_screen c rx ry).2 ∧ (raw_to_screen c rx ry).2 ≤ c.H - 1 ∧
    (tx < c.rawXLeft → (raw_to_screen c rx ry).1 = 0) ∧
    (c.rawXRight < tx → (raw_to_screen c rx ry).1 = c.W - 1) ∧
    (ty < c.rawYTop → (raw_to_screen c rx ry).2 = 0) ∧
    (c.rawYBot < ty → (raw_to_screen c rx ry).2 = c.H - 1) := by
  have hxb := map_linear_bounds tx c.rawXLeft c.rawXRight (c.W - 1) hx (by omega)
  have hyb := map_linear_bounds ty c.rawYTop c.rawYBot (c.H - 1) hy (by omega)
  have heq : raw_to_screen c rx ry =
      (map_linear tx c.rawXLeft c.rawXRight 0 (c.W - 1),
       map_linear ty c.rawYTop c.rawYBot 0 (c.H - 1)) := by
    unfold raw_to_screen
    rw [htx, hty]
  refine ⟨heq, ?_, ?_, ?_, ?_, ?_, ?_, ?_, ?_⟩ <;>
    simp only [heq] <;>
    first
      | exact hxb.1
      | exact hxb.2.1
      | exact hyb.1
      | exact hyb.2.1
      | exact fun h => hxb.2.2.1 h
      | exact fun h => hxb.2.2.2 h
      | exact fun h => hyb.2.2.1 h
      | exact fun h => hyb.2.2.2 h

/-- Witness for C5 at the shipped calibration: raw (2000, 4000) has
post-transform x `3800 - 4000 < 332` and post-transform y `2000 > 1576`,
so it maps to the bounds (0, 319). -/
theorem raw_to_screen_clamps_witness :
    (raw_to_screen CAL 2000 4000).1 = 0 ∧
    (raw_to_screen CAL 2000 4000).2 = CAL.H - 1 := by
  have h := raw_to_screen_clamps CAL 2000 4000 (3800 - 4000) 2000
    (by decide) (by decide) (by decide) (by decide) (by decide) (by decide)
  exact ⟨h.2.2.2.2.2.1 (by decide), h.2.2.2.2.2.2.2.2 (by decide)⟩

/-- The sequential one-axis clip of `fill_rect` (shift a negative origin
to 0 shrinking the size, then truncate at the far edge) computes the
intersection of `[v, v + s)` with `[0, B)`. -/
theorem axis_clip (B v s : Int) :
    (if v < 0 then (0 : Int) else v) = max v 0 ∧
    (if v < 0 then (0 : Int) else v) +
      (if (if v < 0 then (0 : Int) else v) + (if v < 0 then s + v else s) > B
        then B - (if v < 0 then (0 : Int) else v)
        else if v < 0 then s + v else s) = min (v + s) B := by
  split_ifs <;> constructor <;> omega

/-- C4: `fill_rect` issues no bus transaction exactly when the requested
rectangle, intersected with the panel, is empty; otherwise it addresses
precisely the clipped window `[max x 0, min (x+w) W) × [max y 0, min (y+h) H)`
(a negative origin is moved to 0 with the size reduced, and extent past
the far edge is truncated). -/
theorem fill_rect_clips (W H x y w h : Int) (color : Nat) :
    (fill_rect W H 0 0 x y w h color = [] ↔
      min (x + w) W ≤ max x 0 ∨ min (y + h) H ≤ max y 0) ∧
    (max x 0 < min (x + w) W → max y 0 < min (y + h) H →
      ∃ rest, fill_rect W H 0 0 x y w h color =
        set_window 0 0 (max x 0) (max y 0)
          (min (x + w) W - 1) (min (y + h) H - 1) ++ rest) := by
  obtain ⟨hx1, hxw⟩ := axis_clip W x w
  obtain ⟨hy1, hyh⟩ := axis_clip H y h
  unfold fill_rect
  by_cases hdeg : w ≤ 0 ∨ h ≤ 0
  · rw [if_pos hdeg]
    exact ⟨⟨fun _ => by omega, fun _ => rfl⟩, fun hxne hyne => by omega⟩
  · rw [if_neg hdeg]
    push_neg at hdeg
    simp only
    have hw2 : (if (if x < 0 then (0 : Int) else x) + (if x < 0 then w + x else w) > W
        then W - (if x < 0 then (0 : Int) else x)
        else if x < 0 then w + x else w) = min (x + w) W - max x 0 := by omega
    have hh2 : (if (if y < 0 then (0 : Int) else y) + (if y < 0 then h + y else h) > H
        then H - (if y < 0 then (0 : Int) else y)
        else if y < 0 then h + y else h) = min (y + h) H - max y 0 := by omega
    rw [hw2, hh2, hx1, hy1]
    by_cases hemp : min (x + w) W - max x 0 ≤ 0 ∨ min (y + h) H - max y 0 ≤ 0
    · rw [if_pos hemp]
      exact ⟨⟨fun _ => by omega, fun _ => rfl⟩, fun hxne hyne => by omega⟩
    · rw [if_neg hemp]
      push_neg at hemp
      constructor
      · constructor
        · intro habs
          exact absurd habs (List.cons_ne_nil _ _)
        · intro hcontra; omega
      · intro _ _
        have ex : max x 0 + (min (x + w) W - max x 0) - 1 = min (x + w) W - 1 := by
          omega
        have ey : max y 0 + (min (y + h) H - max y 0) - 1 = min (y + h) H - 1 := by
          omega
        rw [ex, ey]
        exact ⟨_, rfl⟩

/-- Witness for C4: the spec's example — a fill at x = −3, width 10 on the
480-wide panel addresses the window starting at column 0 with width 7
(columns 0..6). -/
theorem fill_rect_clips_witness :
    ∃ rest, fill_rect 480 320 0 0 (-3) 5 10 5 0xF800 =
      set_window 0 0 0 5 6 9 ++ rest := by
  have h := (fill_rect_clips 480 320 (-3) 5 10 5 0xF800).2 (by decide) (by decide)
  have e1 : max (-3 : Int) 0 = (0 : Int) := by decide
  have e2 : max (5 : Int) 0 = (5 : Int) := by decide
  have e3 : min ((-3 : Int) + 10) 480 - 1 = (6 : Int) := by decide
  have e4 : min ((5 : Int) + 5) 320 - 1 = (9 : Int) := by decide
  rw [e1, e2, e3, e4] at h
  exact h

/-- C9: the display driver's geometry operations treat out-of-bounds or
degenerate input as a silent no-op that cannot raise: a blit whose target
rectangle is degenerate or would extend past the panel bounds in any
direction returns normally with an empty bus trace (it refuses rather
than clips), and an out-of-bounds draw-pixel call issues no bus write. -/
theorem display_geometry_noop :
    (∀ (W H : Int) (buf : List Nat) (x y w h : Int) (srcLE : Bool),
      (w ≤ 0 ∨ h ≤ 0 ∨ x < 0 ∨ y < 0 ∨ x + w > W ∨ y + h > H) →
      blit_buffer W H 0 0 buf x y w h srcLE = some []) ∧
    (∀ (W H x y : Int) (color : Nat),
      (x < 0 ∨ W ≤ x ∨ y < 0 ∨ H ≤ y) → draw_pixel W H 0 0 x y color = []) := by
  constructor
  · intro W H buf x y w h srcLE hout
    unfold blit_buffer
    by_cases hdeg : w ≤ 0 ∨ h ≤ 0
    · rw [if_pos hdeg]
    · rw [if_neg hdeg]
      rw [if_pos (by omega)]
  · intro W H x y color hout
    unfold draw_pixel
    rw [if_pos (by omega)]

/-- Witness for C9: a blit sticking 10 columns past the right edge of the
480×320 panel is refused without raising, and a draw-pixel at x = 500 is
a no-op. -/
theorem display_geometry_noop_witness :
    blit_buffer 480 320 0 0 [] 475 0 15 5 true = some [] ∧
    draw_pixel 480 320 0 0 500 10 0xFFFF = [] := by
  exact ⟨display_geometry_noop.1 480 320 [] 475 0 15 5 true (by omega),
         display_geometry_noop.2 480 320 500 10 0xFFFF (by omega)⟩

/-- C10: the button hit test accepts exactly the half-open rectangle
`x ≤ px < x + w`, `y ≤ py < y + h`; points on the right or bottom edge
are outside. -/
theorem button_contains_halfopen (b : Button) (px py : Int) :
    (b.contains px py = true ↔
      (b.x ≤ px ∧ px < b.x + b.w ∧ b.y ≤ py ∧ py < b.y + b.h)) ∧
    b.contains (b.x + b.w) py = false ∧
    b.contains px (b.y + b.h) = false := by
  unfold Button.contains
  refine ⟨?_, ?_, ?_⟩
  · simp only [decide_eq_true_eq]
    constructor
    · intro h; exact ⟨h.1.1, h.1.2, h.2.1, h.2.2⟩
    · intro h; exact ⟨⟨h.1, h.2.1⟩, h.2.2.1, h.2.2.2⟩
  · simp only [decide_eq_false_iff_not]
    intro h; omega
  · simp only [decide_eq_false_iff_not]
    intro h; omega

/-- `sampleLoop` returns the X readings at odd bus positions and the Y
readings at even bus positions: each loop iteration reads Y first, then
X. -/
theorem sampleLoop_eq (stream : Nat → Nat) (n : Nat) :
    sampleLoop stream n =
      ((List.range n).map fun i => stream (2 * i + 1),
       (List.range n).map fun i => stream (2 * i)) := by
  induction n with
  | zero => rfl
  | succ k ih =>
    unfold sampleLoop
    rw [ih, List.range_succ]
    simp

/-- The default-headed head of a `(· ≤ ·)`-sorted list bounds every
member from below. -/
theorem sorted_headD_le {l : List Nat} (hs : l.Sorted (· ≤ ·)) :
    ∀ a ∈ l, l.headD 0 ≤ a := by
  intro a ha
  cases l with
  | nil => cases ha
  | cons b t =>
    rcases List.mem_cons.mp ha with rfl | hmem
    · exact le_refl a
    · exact List.rel_of_sorted_cons hs a hmem

/-- Every member of a `(· ≤ ·)`-sorted list is bounded above by its
default-ended last element. -/
theorem sorted_le_getLastD :
    ∀ (t : List Nat) (b : Nat), (b :: t).Sorted (· ≤ ·) →
      ∀ a ∈ b :: t, a ≤ (b :: t).getLastD 0 := by
  intro t
  induction t with
  | nil =>
    intro b _ a ha
    rcases List.mem_cons.mp ha with rfl | hmem
    · exact le_refl a
    · cases hmem
  | cons c t2 ih =>
    intro b hs a ha
    have hs2 : (c :: t2).Sorted (· ≤ ·) := hs.of_cons
    have hgl : (b :: c :: t2).getLastD 0 = (c :: t2).getLastD 0 := by
      rw [List.getLastD_cons, List.getLastD_cons, List.getLastD_cons]
    rcases List.mem_cons.mp ha with rfl | hmem
    · have h1 : a ≤ c := List.rel_of_sorted_cons hs c (List.mem_cons_self c t2)
      have h2 : c ≤ (c :: t2).getLastD 0 :=
        ih c hs2 c (List.mem_cons_self c t2)
      rw [hgl]; exact le_trans h1 h2
    · rw [hgl]; exact ih c hs2 a hmem

/-- A nonempty list contains its default-headed head. -/
theorem headD_mem {l : List Nat} (h : l ≠ []) : l.headD 0 ∈ l := by
  cases l with
  | nil => exact absurd rfl h
  | cons b t => exact List.mem_cons_self b t

/-- A nonempty list contains its default-ended last element. -/
theorem getLastD_mem {l : List Nat} (h : l ≠ []) : l.getLastD 0 ∈ l := by
  cases l with
  | nil => exact absurd rfl h
  | cons b t =>
    rw [List.getLastD_cons]
    exact List.getLastD_mem_cons t b

/-- C2: for any sample count `n ≥ 1` (and any bus readings), `get_raw`
takes `n` paired Y-then-X readings, sorts each axis independently,
returns the middle element of each sorted axis, and reports pressure as
the X sample range plus the Y sample range. -/
theorem get_raw_median_range (irqPresent touched : Bool) (n : Nat)
    (stream : Nat → Nat) (hgate : (irqPresent && !touched) = false)
    (hn : 1 ≤ n) :
    ∃ xv yv pv,
      get_raw irqPresent touched n stream = some (xv, yv, pv) ∧
      (∃ xsS : List Nat,
        xsS.Perm ((List.range n).map fun i => stream (2 * i + 1)) ∧
        xsS.Sorted (· ≤ ·) ∧ xv = xsS.getD (n / 2) 0) ∧
      (∃ ysS : List Nat,
        ysS.Perm ((List.range n).map fun i => stream (2 * i)) ∧
        ysS.Sorted (· ≤ ·) ∧ yv = ysS.getD (n / 2) 0) ∧
      (∃ xmin xmax ymin ymax,
        xmin ∈ ((List.range n).map fun i => stream (2 * i + 1)) ∧
        xmax ∈ ((List.range n).map fun i => stream (2 * i + 1)) ∧
        (∀ a ∈ ((List.range n).map fun i => stream (2 * i + 1)),
          xmin ≤ a ∧ a ≤ xmax) ∧
        ymin ∈ ((List.range n).map fun i => stream (2 * i)) ∧
        ymax ∈ ((List.range n).map fun i => stream (2 * i)) ∧
        (∀ a ∈ ((List.range n).map fun i => stream (2 * i)),
          ymin ≤ a ∧ a ≤ ymax) ∧
        pv = (xmax - xmin) + (ymax - ymin)) := by
  unfold get_raw
  rw [if_neg (by simp [hgate])]
  rw [sampleLoop_eq]
  set xs := (List.range n).map fun i => stream (2 * i + 1) with hxs
  set ys := (List.range n).map fun i => stream (2 * i) with hys
  have hxlen : xs.length = n := by rw [hxs]; simp
  have hylen : ys.length = n := by rw [hys]; simp
  have hxne : xs ≠ [] := by
    intro hcon; rw [hcon] at hxlen; simp at hxlen; omega
  have hyne : ys ≠ [] := by
    intro hcon; rw [hcon] at hylen; simp at hylen; omega
  have hxperm : (xs.insertionSort (· ≤ ·)).Perm xs := List.perm_insertionSort _ _
  have hyperm : (ys.insertionSort (· ≤ ·)).Perm ys := List.perm_insertionSort _ _
  have hxsorted : (xs.insertionSort (· ≤ ·)).Sorted (· ≤ ·) :=
    List.sorted_insertionSort _ _
  have hysorted : (ys.insertionSort (· ≤ ·)).Sorted (· ≤ ·) :=
    List.sorted_insertionSort _ _
  have hxslen : (xs.insertionSort (· ≤ ·)).length = n := by
    rw [hxperm.length_eq, hxlen]
  have hyslen : (ys.insertionSort (· ≤ ·)).length = n := by
    rw [hyperm.length_eq, hylen]
  have hxsne : xs.insertionSort (· ≤ ·) ≠ [] := by
    intro hcon; rw [hcon] at hxslen; simp at hxslen; omega
  have hysne : ys.insertionSort (· ≤ ·) ≠ [] := by
    intro hcon; rw [hcon] at hyslen; simp at hyslen; omega
  refine ⟨_, _, _, rfl, ⟨_, hxperm, hxsorted, ?_⟩, ⟨_, hyperm, hysorted, ?_⟩, ?_⟩
  · rw [hxslen]
  · rw [hyslen]
  · refine ⟨(xs.insertionSort (· ≤ ·)).headD 0, (xs.insertionSort (· ≤ ·)).getLastD 0,
      (ys.insertionSort (· ≤ ·)).headD 0, (ys.insertionSort (· ≤ ·)).getLastD 0,
      ?_, ?_, ?_, ?_, ?_, ?_, rfl⟩
    · exact hxperm.mem_iff.mp (headD_mem hxsne)
    · exact hxperm.mem_iff.mp (getLastD_mem hxsne)
    · intro a ha
      have ha2 : a ∈ xs.insertionSort (· ≤ ·) := hxperm.mem_iff.mpr ha
      constructor
      · exact sorted_headD_le hxsorted a ha2
      · cases hsl : xs.insertionSort (· ≤ ·) with
        | nil => rw [hsl] at ha2; cases ha2
        | cons b t =>
          rw [hsl] at ha2 hxsorted
          exact sorted_le_getLastD t b hxsorted a ha2
    · exact hyperm.mem_iff.mp (headD_mem hysne)
    · exact hyperm.mem_iff.mp (getLastD_mem hysne)
    · intro a ha
      have ha2 : a ∈ ys.insertionSort (· ≤ ·) := hyperm.mem_iff.mpr ha
      constructor
      · exact sorted_headD_le hysorted a ha2
      · cases hsl : ys.insertionSort (· ≤ ·) with
        | nil => rw [hsl] at ha2; cases ha2
        | cons b t =>
          rw [hsl] at ha2 hysorted
          exact sorted_le_getLastD t b hysorted a ha2

/-- Witness for C2 at the spec's example: X samples [10, 50, 12, 48, 11]
and Y samples [20, 21, 90, 22, 19] give x-median 12, y-median 21 and
pressure (50 − 10) + (90 − 19) = 111. -/
theorem get_raw_median_range_witness :
    get_raw false true 5 exStream = some (12, 21, 111) := by
  have h := get_raw_median_range false true 5 exStream (by decide) (by decide)
  decide

/-- Every branch of `micUpdate` stores the freshly smoothed RMS. -/
theorem mic_ema_step (p : MicParams) (st : MicState) (raw : ℚ) (now : ℤ) :
    (micUpdate p st raw now).ema = newEma p st.ema raw := by
  cases hq : st.qstart with
  | none => simp only [micUpdate, hq]; split_ifs <;> rfl
  | some t => simp only [micUpdate, hq]; split_ifs <;> rfl

/-- `micStates` always records the start state first. -/
theorem micStates_getD_zero (p : MicParams) (st : MicState)
    (inputs : List (ℚ × ℤ)) (d : MicState) :
    (micStates p st inputs).getD 0 d = st := by
  cases inputs with
  | nil => rfl
  | cons a rest => cases a; rfl

/-- Branch of `micUpdate`: Loud, no candidate timer, sub-threshold RMS —
the candidate-quiet timer starts at `now`, state stays Loud. -/
theorem micUpdate_start (p : MicParams) (st : MicState) (raw : ℚ) (now : ℤ)
    (h0 : st.quiet = false) (hq : st.qstart = none)
    (hlt : newEma p st.ema raw < p.quietThreshold) :
    micUpdate p st raw now =
      { ema := newEma p st.ema raw, quiet := false, qstart := some now } := by
  simp only [micUpdate]
  rw [h0, hq, if_pos rfl, if_pos hlt]

/-- Branch of `micUpdate`: Loud, running timer, sub-threshold RMS, dwell
elapsed — flip to Quiet. -/
theorem micUpdate_hold_flip (p : MicParams) (st : MicState) (raw : ℚ)
    (now t : ℤ) (h0 : st.quiet = false) (hq : st.qstart = some t)
    (hlt : newEma p st.ema raw < p.quietThreshold)
    (hhold : now - t ≥ p.quietHoldMs) :
    micUpdate p st raw now =
      { ema := newEma p st.ema raw, quiet := true, qstart := some t } := by
  simp only [micUpdate]
  rw [h0, hq, if_pos rfl, if_pos hlt]
  dsimp only
  rw [if_pos hhold]

/-- Branch of `micUpdate`: Loud, running timer, sub-threshold RMS, dwell
not yet elapsed — timer continues, state stays Loud. -/
theorem micUpdate_hold_wait (p : MicParams) (st : MicState) (raw : ℚ)
    (now t : ℤ) (h0 : st.quiet = false) (hq : st.qstart = some t)
    (hlt : newEma p st.ema raw < p.quietThreshold)
    (hhold : ¬now - t ≥ p.quietHoldMs) :
    micUpdate p st raw now =
      { ema := newEma p st.ema raw, quiet := false, qstart := some t } := by
  simp only [micUpdate]
  rw [h0, hq, if_pos rfl, if_pos hlt]
  dsimp only
  rw [if_neg hhold]

/-- Branch of `micUpdate`: Loud, RMS at or above the entry threshold —
the candidate timer is cleared (not paused), state stays Loud. -/
theorem micUpdate_clear (p : MicParams) (st : MicState) (raw : ℚ) (now : ℤ)
    (h0 : st.quiet = false)
    (hge : ¬newEma p st.ema raw < p.quietThreshold) :
    micUpdate p st raw now =
      { ema := newEma p st.ema raw, quiet := false, qstart := none } := by
  simp only [micUpdate]
  rw [h0, if_pos rfl, if_neg hge]

/-- Branch of `micUpdate`: Quiet, RMS strictly above threshold plus
hysteresis — flip to Loud immediately. -/
theorem micUpdate_exit (p : MicParams) (st : MicState) (raw : ℚ) (now : ℤ)
    (h0t : st.quiet = true)
    (hgt : newEma p st.ema raw > p.quietThreshold + p.hysteresis) :
    micUpdate p st raw now =
      { ema := newEma p st.ema raw, quiet := false, qstart := none } := by
  simp only [micUpdate]
  rw [h0t, if_neg (by simp), if_pos hgt]

/-- Branch of `micUpdate`: Quiet, RMS not above threshold plus
hysteresis — stay Quiet. -/
theorem micUpdate_stay (p : MicParams) (st : MicState) (raw : ℚ) (now : ℤ)
    (h0t : st.quiet = true)
    (hng : ¬newEma p st.ema raw > p.quietThreshold + p.hysteresis) :
    micUpdate p st raw now =
      { ema := newEma p st.ema raw, quiet := true, qstart := st.qstart } := by
  simp only [micUpdate]
  rw [h0t, if_neg (by simp), if_neg hng]

/-- Inversion of a Loud → Quiet flip: it requires a sub-threshold
smoothed RMS and a candidate-quiet timestamp at least `quietHoldMs` old. -/
theorem mic_flip_inversion (p : MicParams) (st : MicState) (raw : ℚ) (now : ℤ)
    (h0 : st.quiet = false) (h1 : (micUpdate p st raw now).quiet = true) :
    newEma p st.ema raw < p.quietThreshold ∧
    ∃ t, st.qstart = some t ∧ p.quietHoldMs ≤ now - t := by
  by_cases hlt : newEma p st.ema raw < p.quietThreshold
  · cases hq : st.qstart with
    | none =>
      rw [micUpdate_start p st raw now h0 hq hlt] at h1
      simp at h1
    | some t =>
      by_cases hh : now - t ≥ p.quietHoldMs
      · exact ⟨hlt, t, rfl, by omega⟩
      · rw [micUpdate_hold_wait p st raw now t h0 hq hlt hh] at h1
        simp at h1
  · rw [micUpdate_clear p st raw now h0 hlt] at h1
    simp at h1

/-- Inversion of a retained candidate-quiet timestamp in Loud: the
smoothed RMS was sub-threshold, the machine was already Loud, and the
timestamp is either inherited or freshly started at `now`. -/
theorem mic_qstart_inversion (p : MicParams) (st : MicState) (raw : ℚ)
    (now t : ℤ)
    (hq1 : (micUpdate p st raw now).qstart = some t)
    (hq2 : (micUpdate p st raw now).quiet = false) :
    newEma p st.ema raw < p.quietThreshold ∧ st.quiet = false ∧
    (st.qstart = some t ∨ (st.qstart = none ∧ t = now)) := by
  by_cases h0 : st.quiet = false
  · by_cases hlt : newEma p st.ema raw < p.quietThreshold
    · cases hq : st.qstart with
      | none =>
        rw [micUpdate_start p st raw now h0 hq hlt] at hq1
        simp at hq1
        exact ⟨hlt, h0, Or.inr ⟨rfl, hq1.symm⟩⟩
      | some t0 =>
        by_cases hh : now - t0 ≥ p.quietHoldMs
        · rw [micUpdate_hold_flip p st raw now t0 h0 hq hlt hh] at hq2
          simp at hq2
        · rw [micUpdate_hold_wait p st raw now t0 h0 hq hlt hh] at hq1
          simp at hq1
          exact ⟨hlt, h0, Or.inl (by rw [hq1])⟩
    · rw [micUpdate_clear p st raw now h0 hlt] at hq1
      simp at hq1
  · have h0t : st.quiet = true := by
      revert h0; cases st.quiet <;> simp
    by_cases hgt : newEma p st.ema raw > p.quietThreshold + p.hysteresis
    · rw [micUpdate_exit p st raw now h0t hgt] at hq1
      simp at hq1
    · rw [micUpdate_stay p st raw now h0t hgt] at hq2
      simp at hq2

/-- A Loud → Quiet flip observed anywhere along a run requires a streak
of consecutive sub-threshold smoothed readings spanning at least the
dwell time: the streak either starts at some update `j` of the run, or
extends back into a candidate timer already pending in the start state. -/
theorem mic_flip_dwell_aux (p : MicParams) :
    ∀ (inputs : List (ℚ × ℤ)) (st : MicState) (k : Nat),
      k + 1 ≤ inputs.length →
      ((micStates p st inputs).getD k micInit).quiet = false →
      ((micStates p st inputs).getD (k + 1) micInit).quiet = true →
      (∃ j, j ≤ k ∧
        p.quietHoldMs ≤ (inputs.getD k ((0 : ℚ), (0 : ℤ))).2 -
          (inputs.getD j ((0 : ℚ), (0 : ℤ))).2 ∧
        ∀ i, j ≤ i → i ≤ k →
          ((micStates p st inputs).getD (i + 1) micInit).ema < p.quietThreshold) ∨
      (∃ t, st.qstart = some t ∧ st.quiet = false ∧
        p.quietHoldMs ≤ (inputs.getD k ((0 : ℚ), (0 : ℤ))).2 - t ∧
        ∀ i, i ≤ k →
          ((micStates p st inputs).getD (i + 1) micInit).ema < p.quietThreshold) := by
  intro inputs
  induction inputs with
  | nil =>
    intro st k hk _ _
    simp at hk
  | cons a rest ih =>
    obtain ⟨r, n0⟩ := a
    intro st k hk hq0 hq1
    have hcons : micStates p st ((r, n0) :: rest) =
        st :: micStates p (micUpdate p st r n0) rest := rfl
    cases k with
    | zero =>
      rw [hcons] at hq0 hq1
      simp only [List.getD_cons_zero] at hq0
      simp only [List.getD_cons_succ] at hq1
      rw [micStates_getD_zero] at hq1
      obtain ⟨hema, t, hqt, hhold⟩ := mic_flip_inversion p st r n0 hq0 hq1
      right
      refine ⟨t, hqt, hq0, ?_, ?_⟩
      · simp only [List.getD_cons_zero]
        exact hhold
      · intro i hi
        have hi0 : i = 0 := by omega
        subst hi0
        rw [hcons]
        simp only [List.getD_cons_succ]
        rw [micStates_getD_zero, mic_ema_step]
        exact hema
    | succ k2 =>
      rw [hcons] at hq0 hq1
      simp only [List.getD_cons_succ] at hq0 hq1
      have hk2 : k2 + 1 ≤ rest.length := by
        simp only [List.length_cons] at hk
        omega
      rcases ih (micUpdate p st r n0) k2 hk2 hq0 hq1 with
        ⟨j, hj, hdiff, hall⟩ | ⟨t, hqt, hquiet, hdiff, hall⟩
      · left
        refine ⟨j + 1, by omega, ?_, ?_⟩
        · simp only [List.getD_cons_succ]
          exact hdiff
        · intro i hi1 hi2
          obtain ⟨i2, rfl⟩ : ∃ i2, i = i2 + 1 := ⟨i - 1, by omega⟩
          rw [hcons]
          simp only [List.getD_cons_succ]
          exact hall i2 (by omega) (by omega)
      · obtain ⟨hema, hstq, hcase⟩ := mic_qstart_inversion p st r n0 t hqt hquiet
        rcases hcase with hsome | ⟨hnone, rfl⟩
        · right
          refine ⟨t, hsome, hstq, ?_, ?_⟩
          · simp only [List.getD_cons_succ]
            exact hdiff
          · intro i hi
            cases i with
            | zero =>
              rw [hcons]
              simp only [List.getD_cons_succ]
              rw [micStates_getD_zero, mic_ema_step]
              exact hema
            | succ i2 =>
              rw [hcons]
              simp only [List.getD_cons_succ]
              exact hall i2 (by omega)
        · left
          refine ⟨0, by omega, ?_, ?_⟩
          · simp only [List.getD_cons_succ, List.getD_cons_zero]
            exact hdiff
          · intro i _ hi2
            cases i with
            | zero =>
              rw [hcons]
              simp only [List.getD_cons_succ]
              rw [micStates_getD_zero, mic_ema_step]
              exact hema
            | succ i2 =>
              rw [hcons]
              simp only [List.getD_cons_succ]
              exact hall i2 (by omega)

/-- C3: the ambient classifier's two-state machine, with the
application's parameters (threshold 0.4, hysteresis 0.003, hold
1500 ms), starting in Loud: (1) the initial state is Loud; (2) in Loud
with no candidate timer, a sub-threshold smoothed RMS starts the timer
at the current time without flipping; (3) in Loud, a smoothed RMS at or
above the threshold clears the timer (it is not paused); (4) in Loud
with a running timer and sub-threshold RMS, the state flips to Quiet
exactly when at least 1500 ms have elapsed since the timer started;
(5) in Loud with a running timer, the timer survives the update exactly
when the RMS stayed sub-threshold; (6) in Quiet, a single update flips
to Loud exactly when the smoothed RMS strictly exceeds 0.403; (7) along
any run from the initial state, a Loud → Quiet flip at step k implies a
streak of consecutive sub-threshold smoothed readings from some step
j ≤ k whose timestamps span at least 1500 ms. -/
theorem mic_quiet_state_machine :
    micInit.quiet = false ∧
    (∀ (st : MicState) (raw : ℚ) (now : ℤ),
      st.quiet = false → st.qstart = none →
      newEma mainMicParams st.ema raw < 4 / 10 →
      micUpdate mainMicParams st raw now =
        { ema := newEma mainMicParams st.ema raw, quiet := false,
          qstart := some now }) ∧
    (∀ (st : MicState) (raw : ℚ) (now : ℤ),
      st.quiet = false → ¬newEma mainMicParams st.ema raw < 4 / 10 →
      micUpdate mainMicParams st raw now =
        { ema := newEma mainMicParams st.ema raw, quiet := false,
          qstart := none }) ∧
    (∀ (st : MicState) (raw : ℚ) (now t : ℤ),
      st.quiet = false → st.qstart = some t →
      newEma mainMicParams st.ema raw < 4 / 10 →
      ((micUpdate mainMicParams st raw now).quiet = true ↔
        now - t ≥ 1500)) ∧
    (∀ (st : MicState) (raw : ℚ) (now t : ℤ),
      st.quiet = false → st.qstart = some t →
      ((micUpdate mainMicParams st raw now).qstart = some t ↔
        newEma mainMicParams st.ema raw < 4 / 10)) ∧
    (∀ (st : MicState) (raw : ℚ) (now : ℤ),
      st.quiet = true →
      ((micUpdate mainMicParams st raw now).quiet = false ↔
        newEma mainMicParams st.ema raw > 4 / 10 + 3 / 1000)) ∧
    (∀ (inputs : List (ℚ × ℤ)) (k : Nat),
      k + 1 ≤ inputs.length →
      ((micStates mainMicParams micInit inputs).getD k micInit).quiet = false →
      ((micStates mainMicParams micInit inputs).getD (k + 1) micInit).quiet = true →
      ∃ j, j ≤ k ∧
        (1500 : ℤ) ≤ (inputs.getD k ((0 : ℚ), (0 : ℤ))).2 -
          (inputs.getD j ((0 : ℚ), (0 : ℤ))).2 ∧
        ∀ i, j ≤ i → i ≤ k →
          ((micStates mainMicParams micInit inputs).getD (i + 1) micInit).ema
            < 4 / 10) := by
  refine ⟨rfl, ?_, ?_, ?_, ?_, ?_, ?_⟩
  · intro st raw now h0 h1 h2
    exact micUpdate_start mainMicParams st raw now h0 h1 h2
  · intro st raw now h0 h2
    exact micUpdate_clear mainMicParams st raw now h0 h2
  · intro st raw now t h0 hq hlt
    constructor
    · intro hflip
      obtain ⟨-, t2, hq2, hh2⟩ :=
        mic_flip_inversion mainMicParams st raw now h0 hflip
      rw [hq] at hq2
      injection hq2 with ht2
      have he : mainMicParams.quietHoldMs = 1500 := rfl
      rw [he] at hh2
      omega
    · intro hh
      rw [micUpdate_hold_flip mainMicParams st raw now t h0 hq hlt hh]
  · intro st raw now t h0 hq
    constructor
    · intro hkeep
      by_contra hge
      rw [micUpdate_clear mainMicParams st raw now h0 hge] at hkeep
      simp at hkeep
    · intro hlt
      by_cases hh : now - t ≥ mainMicParams.quietHoldMs
      · rw [micUpdate_hold_flip mainMicParams st raw now t h0 hq hlt hh]
      · rw [micUpdate_hold_wait mainMicParams st raw now t h0 hq hlt hh]
  · intro st raw now h0t
    constructor
    · intro hexit
      by_contra hng
      rw [micUpdate_stay mainMicParams st raw now h0t hng] at hexit
      simp at hexit
    · intro hgt
      rw [micUpdate_exit mainMicParams st raw now h0t hgt]
  · intro inputs k hk hq0 hq1
    rcases mic_flip_dwell_aux mainMicParams inputs micInit k hk hq0 hq1 with
      ⟨j, hj, hdiff, hall⟩ | ⟨t, hqt, -, -, -⟩
    · exact ⟨j, hj, hdiff, hall⟩
    · exact absurd hqt (by simp [micInit])

/-- Witness for C3 (Quiet-side behaviour at the spec's probe values):
from Quiet with smoothed RMS settled at 0.404 the next update flips to
Loud, while at 0.402 it stays Quiet. -/
theorem mic_quiet_state_machine_witness :
    (micUpdate mainMicParams
      { ema := 404 / 1000, quiet := true, qstart := none }
      (404 / 1000) 0).quiet = false ∧
    (micUpdate mainMicParams
      { ema := 402 / 1000, quiet := true, qstart := none }
      (402 / 1000) 0).quiet = true := by
  obtain ⟨-, -, -, -, -, hexit, -⟩ := mic_quiet_state_machine
  constructor
  · exact (hexit { ema := 404 / 1000, quiet := true, qstart := none }
      (404 / 1000) 0 rfl).mpr (by norm_num [newEma, mainMicParams])
  · have h2 := hexit { ema := 402 / 1000, quiet := true, qstart := none }
      (402 / 1000) 0 rfl
    have h3 : ¬(micUpdate mainMicParams
        { ema := 402 / 1000, quiet := true, qstart := none }
        (402 / 1000) 0).quiet = false := by
      intro hf
      exact absurd (h2.mp hf) (by norm_num [newEma, mainMicParams])
    rcases Bool.eq_false_or_eq_true ((micUpdate mainMicParams
        { ema := 402 / 1000, quiet := true, qstart := none }
        (402 / 1000) 0).quiet) with ht | hf
    · exact ht
    · exact absurd hf h3

/-- `pySplit` on a fragment not containing the separator returns just
that fragment. -/
theorem pySplit_not_mem {sep : Char} {w : List Char} (h : sep ∉ w) :
    pySplit sep w = [w] := by
  induction w with
  | nil => rfl
  | cons c rest ih =>
    have hc : ¬c = sep := by
      intro hcon; exact h (hcon ▸ List.mem_cons_self c rest)
    have hrest : sep ∉ rest := fun hm => h (List.mem_cons_of_mem c hm)
    unfold pySplit
    rw [if_neg hc, ih hrest]

/-- `pySplit` peels one separator-free fragment off the front. -/
theorem pySplit_append_cons (sep : Char) (a b : List Char) (ha : sep ∉ a) :
    pySplit sep (a ++ sep :: b) = a :: pySplit sep b := by
  induction a with
  | nil =>
    rw [List.nil_append]
    conv_lhs => rw [pySplit]
    rw [if_pos rfl]
  | cons c a2 ih =>
    have hc : ¬c = sep := by
      intro hcon; exact ha (hcon ▸ List.mem_cons_self c a2)
    have ha2 : sep ∉ a2 := fun hm => ha (List.mem_cons_of_mem c hm)
    rw [List.cons_append]
    conv_lhs => rw [pySplit]
    rw [if_neg hc, ih ha2]

/-- C6: the word-wrap operation splits the input on spaces; a token
containing an embedded line break is processed as its first fragment,
then a forced flush of the current line regardless of remaining budget,
then its second fragment; a break-free token goes through the
fit-or-flush step, which appends the token to the current line exactly
when `current length + 1 (if the line is non-empty) + token length` is
within the budget and otherwise flushes the current line and starts the
token on a new line; in particular wrapping "ONE TWO THREE" with budget
7 yields exactly ["ONE TWO", "THREE"]. -/
theorem wrap_text_spec :
    wrap_text ("ONE TWO THREE".toList) 7 =
      ["ONE TWO".toList, "THREE".toList] ∧
    (∀ (maxChars : Nat) (st : List (List Char) × List Char)
      (a b : List Char), '\n' ∉ a → '\n' ∉ b →
      processWord maxChars st (a ++ '\n' :: b) =
        (let st1 := if a ≠ [] then accumWord maxChars st a else st
         let st2 := ((if st1.2 ≠ [] then st1.1 ++ [st1.2] else st1.1),
           ([] : List Char))
         if b ≠ [] then accumWord maxChars st2 b else st2)) ∧
    (∀ (maxChars : Nat) (st : List (List Char) × List Char)
      (w : List Char), '\n' ∉ w →
      processWord maxChars st w = accumWord maxChars st w) ∧
    (∀ (maxChars : Nat) (lines : List (List Char)) (cur w : List Char),
      accumWord maxChars (lines, cur) w =
        if cur.length + (if cur ≠ [] then 1 else 0) + w.length ≤ maxChars
        then (lines, pyStrip (cur ++ ' ' :: w))
        else ((if cur ≠ [] then lines ++ [cur] else lines), w)) := by
  refine ⟨by decide, ?_, ?_, ?_⟩
  · intro maxChars st a b ha hb
    unfold processWord
    rw [if_pos (by simp), pySplit_append_cons '\n' a b ha, pySplit_not_mem hb]
    cases a with
    | nil => rfl
    | cons c a2 => rfl
  · intro maxChars st w hw
    unfold processWord
    rw [if_neg hw]
  · intro maxChars lines cur w
    rfl

/-- Witness for C6: an embedded line break splits "AB\nCD" into two
lines even with a budget of 99 left on the current line. -/
theorem wrap_text_spec_witness :
    processWord 99 ([], []) ("AB".toList ++ '\n' :: "CD".toList) =
      (["AB".toList], "CD".toList) := by
  have h := wrap_text_spec.2.1 99 ([], []) ("AB".toList) ("CD".toList)
    (by decide) (by decide)
  rw [h]
  decide

/-- C7: with the microphone present, a forced badge redraw always draws,
even within 250 ms of the previous draw; and of two unforced redraw
requests with the same classification less than 250 ms apart, if the
first draws then the second does not. -/
theorem mic_badge_throttle :
    (∀ (quiet : Bool) (now : Int) (st : BadgeState),
      (draw_mic_badge true true quiet now st).1 = true) ∧
    (∀ (quiet : Bool) (t1 t2 : Int) (st : BadgeState),
      (draw_mic_badge true false quiet t1 st).1 = true →
      t2 - t1 < 250 →
      (draw_mic_badge true false quiet t2
        (draw_mic_badge true false quiet t1 st).2).1 = false) := by
  constructor
  · intro quiet now st
    unfold draw_mic_badge
    rw [if_neg (by simp), if_neg (by simp), if_neg (by simp)]
  · intro quiet t1 t2 st h1 h2
    unfold draw_mic_badge at h1 ⊢
    rw [if_neg (by simp)] at h1 ⊢
    by_cases c1 : false = false ∧ t1 - st.lastDraw < MIC_DRAW_THROTTLE
    · rw [if_pos c1] at h1
      simp at h1
    · rw [if_neg c1] at h1 ⊢
      by_cases c2 : false = false ∧ some quiet = st.lastState
      · rw [if_pos c2] at h1
        simp at h1
      · rw [if_neg c2] at h1 ⊢
        rw [if_pos ⟨rfl, by simp [MIC_DRAW_THROTTLE]; omega⟩]

/-- Witness for C7: from fresh bookkeeping at time 300 an unforced
request draws, and a second identical request 100 ms later does not. -/
theorem mic_badge_throttle_witness :
    (draw_mic_badge true false true 400
      (draw_mic_badge true false true 300 badgeInit).2).1 = false := by
  exact mic_badge_throttle.2 true 300 400 badgeInit (by decide) (by decide)

/-- C8: the communication-card index stays within the bounds of the
active category's card list: the initial state is in bounds, Prev and
Next preserve being in bounds, opening any category resets the index to
0 (in bounds for each of the five categories), Prev at index 0 is a
no-op, and Next at the last index is a no-op. -/
theorem comm_card_index_bounds :
    commInit.idx < commInit.cards.length ∧
    (∀ st : CommState, st.idx < st.cards.length →
      (comm_prev st).idx < (comm_prev st).cards.length ∧
      (comm_next st).idx < (comm_next st).cards.length) ∧
    (∀ i : Nat, (open_category i).idx = 0) ∧
    (∀ i : Nat, i < 5 →
      (open_category i).idx < (open_category i).cards.length) ∧
    (∀ st : CommState, st.idx = 0 → comm_prev st = st) ∧
    (∀ st : CommState, st.idx = st.cards.length - 1 → comm_next st = st) := by
  refine ⟨by decide, ?_, ?_, by decide, ?_, ?_⟩
  · intro st hst
    constructor
    · unfold comm_prev
      split_ifs with hc
      · show st.idx - 1 < st.cards.length
        omega
      · exact hst
    · unfold comm_next
      split_ifs with hc
      · show st.idx + 1 < st.cards.length
        omega
      · exact hst
  · intro i
    rfl
  · intro st h0
    unfold comm_prev
    rw [if_neg (by omega)]
  · intro st hlast
    unfold comm_next
    rw [if_neg (by omega)]

/-- Witness for C8: Prev at the initial state (index 0) is a no-op, and
Next at the last favourites card (index 5 of 6) is a no-op. -/
theorem comm_card_index_bounds_witness :
    comm_prev commInit = commInit ∧
    comm_next { cards := FAV_CARDS, catName := "FAVOURITES", idx := 5 } =
      { cards := FAV_CARDS, catName := "FAVOURITES", idx := 5 } := by
  obtain ⟨-, -, -, -, hprev, hnext⟩ := comm_card_index_bounds
  exact ⟨hprev commInit rfl, hnext _ (by decide)⟩

/-- C1 (code bug): class `XPT2046` defines no method named `read`, so on
every main-loop iteration in which the digitizer reports a touch, the
attribute access `tp.read(samples=9, delay_us=120)` raises
AttributeError, and with no handler in the loop body the failure
propagates and terminates the main loop — no filtered sample is
obtained, contradicting the claim. -/
theorem main_loop_touch_read_raises :
    xpt2046Methods.contains "read" = false ∧
    (∀ stream : Nat → Nat,
      main_loop_iteration true stream =
        PyOutcome.raised
          "AttributeError: XPT2046 object has no attribute read") := by
  constructor
  · rfl
  · intro stream
    unfold main_loop_iteration main_loop_touch_poll tpRead
    rw [if_pos rfl, if_neg (by decide)]
